import Mathlib

/-!
Verification of the CV data pipeline (csv_to_json_converter.py,
json_to_csv_converter.py, ai_cv_generator.py) against its specification.

The Python code is shallowly embedded: dictionaries become association
lists that preserve insertion order, Python lists become Lean lists,
floats that are only ever compared become rationals, and the stable
Timsort used by list.sort becomes List.mergeSort (any stable sort by the
same key produces the same output sequence, so this is a faithful model
of the sorted result).  String primitives are re-implemented over the
character list of a String so that all definitions evaluate inside the
kernel; they agree with the Python behaviour on the ASCII data the
pipeline manipulates.
-/

/-- ASCII lower-casing of one character, as Python str.lower does on ASCII. -/
def pyCharLower (c : Char) : Char :=
  if 'A' ≤ c ∧ c ≤ 'Z' then Char.ofNat (c.toNat + 32) else c

/-- Python str.lower, restricted to ASCII (all strings compared by the code,
such as the filter-logic values "and" and "or", are ASCII). -/
def pyLower (s : String) : String := ⟨s.data.map pyCharLower⟩

/-- Python str.isdigit on ASCII data: nonempty and every character a decimal
digit.  Python also accepts some Unicode digit characters, on which int()
may raise; the pipeline only ever sees ASCII years here. -/
def pyIsDigit (s : String) : Bool := !s.data.isEmpty && s.data.all Char.isDigit

/-- Python int() on a string of decimal digits. -/
def pyStrToNat (s : String) : Nat := s.data.foldl (fun n c => n * 10 + (c.toNat - 48)) 0

/-- Lexicographic comparison of character lists, the order Python uses for
comparing strings (by code point). -/
def listCharLe : List Char → List Char → Bool
  | [], _ => true
  | _ :: _, [] => false
  | a :: as, b :: bs => if a < b then true else if b < a then false else listCharLe as bs

/-- Python string comparison a <= b (lexicographic by code point). -/
def strLeB (a b : String) : Bool := listCharLe a.data b.data

/-- Python str.startswith. -/
def strStartsWith (s pre : String) : Bool := pre.data.isPrefixOf s.data

/-- Substring test on character lists (Python needle in haystack). -/
def listIsInfixOf (needle : List Char) : List Char → Bool
  | [] => needle.isEmpty
  | h :: t => needle.isPrefixOf (h :: t) || listIsInfixOf needle t

/-- Python substring containment needle in hay. -/
def pyInStr (needle hay : String) : Bool := listIsInfixOf needle.data hay.data

/-- Python single-character str.replace, used by the slug computation. -/
def charReplace (s : String) (a b : Char) : String :=
  ⟨s.data.map (fun c => if c = a then b else c)⟩

/-- One CV line item as built by parse_entries_csv and consumed by
write_entries_cssv and the tailoring engine.  The Python dict fields
section and end are keywords in Lean and carry a trailing underscore. -/
structure Entry where
  section_ : String
  title : String
  loc : String
  institution : String
  start : String
  end_ : String
  descriptions : List String
  companies : List String
  tags : List String
  importance : Int
deriving DecidableEq

/-- A contact value as stored by parse_contact_info_csv: the contact text
plus the icon column of the row it came from. -/
structure ContactVal where
  value : String
  icon : String
deriving DecidableEq

/-- Membership test of a key in a Python dict modelled as an assoc list. -/
def pyDictHasKey (m : List (String × ContactVal)) (k : String) : Bool :=
  m.any (fun p => p.1 == k)

/-- Python dict assignment m[k] = v: overwrites in place when the key exists
(keeping its position), otherwise appends (insertion order). -/
def pyDictInsert (m : List (String × ContactVal)) (k : String) (v : ContactVal) :
    List (String × ContactVal) :=
  if pyDictHasKey m k then m.map (fun p => if p.1 == k then (p.1, v) else p)
  else m ++ [(k, v)]

/-- Direct-CSV branch of parse_contact_info_csv (csv_to_json_converter.py
lines 144-165): each data row with at least three cells contributes, when
both loc and contact are nonempty, an entry under key loc, except that if
loc is already a key and the icon cell is nonempty the key is loc_icon. -/
def parse_contact_info_rows (rows : List (List String)) : List (String × ContactVal) :=
  rows.foldl
    (fun result row =>
      if row.length ≥ 3 then
        let loc := row.getD 0 ""
        let icon := row.getD 1 ""
        let contact := row.getD 2 ""
        if loc ≠ "" ∧ contact ≠ "" then
          let key := if pyDictHasKey result loc ∧ icon ≠ "" then loc ++ "_" ++ icon else loc
          pyDictInsert result key ⟨contact, icon⟩
        else result
      else result)
    []

/-- With two website rows the code stores the FIRST row under the bare key
website (no icon suffix, because website is not yet a key when the first
row arrives) and only the second row under website_book; the key
website_globe claimed by the spec never exists. -/
theorem C1_contact_disambiguation_counterexample :
    parse_contact_info_rows
        [["website", "globe", "https://me.example"], ["website", "book", "https://books.example"]]
      = [("website", ⟨"https://me.example", "globe"⟩),
         ("website_book", ⟨"https://books.example", "book"⟩)]
    ∧ pyDictHasKey
        (parse_contact_info_rows
          [["website", "globe", "https://me.example"], ["website", "book", "https://books.example"]])
        "website_globe" = false := by
  constructor
  · rfl
  · rfl

/-- Helper: a string strictly extending website with an underscore and a
suffix is never equal to website itself (their lengths differ). -/
theorem website_ne_underscore (icon : String) :
    ("website_" ++ icon) ≠ "website" := by
  intro h
  have hlen := congrArg String.length h
  rw [String.length_append] at hlen
  have h8 : ("website_" : String).length = 8 := rfl
  have h7 : ("website" : String).length = 7 := rfl
  rw [h8, h7] at hlen
  omega

/-- Amended C1: for any two contact rows sharing loc website with nonempty
contacts, the first row is stored under the bare key website and, when the
second row carries a nonempty icon, the second row is stored under
website_icon; both rows survive, neither is overwritten. -/
theorem C1_contact_disambiguation_amended (icon1 icon2 c1 c2 : String)
    (h1 : c1 ≠ "") (h2 : c2 ≠ "") (h3 : icon2 ≠ "") :
    parse_contact_info_rows [["website", icon1, c1], ["website", icon2, c2]]
      = [("website", ⟨c1, icon1⟩), ("website_" ++ icon2, ⟨c2, icon2⟩)] := by
  have hne : (("website" : String) == "website_" ++ icon2) = false := by
    rw [beq_eq_false_iff_ne]
    exact fun h => website_ne_underscore icon2 h.symm
  simp [parse_contact_info_rows, pyDictInsert, pyDictHasKey, h1, h2, h3, hne]

/-- Witness for the amended C1 at the globe and book rows of the spec. -/
theorem C1_contact_disambiguation_amended_witness :
    (("a" : String) ≠ "" ∧ ("b" : String) ≠ "" ∧ ("book" : String) ≠ "")
    ∧ parse_contact_info_rows [["website", "globe", "a"], ["website", "book", "b"]]
        = [("website", ⟨"a", "globe"⟩), ("website_" ++ "book", ⟨"b", "book"⟩)] :=
  ⟨⟨by decide, by decide, by decide⟩,
   C1_contact_disambiguation_amended "globe" "book" "a" "b" (by decide) (by decide) (by decide)⟩

/-- Composite sort key of write_entries_csv (json_to_csv_converter.py lines
91-97): negated importance, then 0 for an end of Current and 1 otherwise,
then the negated integer value of a purely numeric end and 0 otherwise. -/
def pyKey (e : Entry) : Int × Nat × Int :=
  (-e.importance,
   if e.end_ = "Current" then 0 else 1,
   if pyIsDigit e.end_ then -(pyStrToNat e.end_ : Int) else 0)

/-- Lexicographic order on the composite key, the order Python uses on the
key tuples. -/
def keyLeB (x y : Int × Nat × Int) : Bool :=
  decide (x.1 < y.1) ||
    (decide (x.1 = y.1) &&
      (decide (x.2.1 < y.2.1) ||
        (decide (x.2.1 = y.2.1) && decide (x.2.2 ≤ y.2.2))))

/-- Order on entries induced by the composite key. -/
def entryLeB (a b : Entry) : Bool := keyLeB (pyKey a) (pyKey b)

/-- The stable sort performed by filtered_entries.sort in write_entries_csv. -/
def sortEntries (l : List Entry) : List Entry := l.mergeSort entryLeB

/-- One company or tag filter stage of write_entries_csv (lines 64-86): an
empty filter list is falsy in Python and skipped entirely; otherwise with
logic and every filter member must be present, with logic or at least one
must be, and any other logic string excludes nothing. -/
def passFilters (logic : String) (filters : List String) (present : List String) : Bool :=
  if filters.isEmpty then true
  else if pyLower logic == "and" && !(filters.all (fun f => present.contains f)) then false
  else if pyLower logic == "or" && !(filters.any (fun f => present.contains f)) then false
  else true

/-- The per-entry keep decision of the filter loop of write_entries_csv
(lines 56-88): the docType tag is mandatory, then the company filters and
the tag filters are applied with the same logic value. -/
def keepEntry (docType : String) (companyFilters tagFilters : List String)
    (logic : String) (e : Entry) : Bool :=
  e.tags.contains docType
    && passFilters logic companyFilters e.companies
    && passFilters logic tagFilters e.tags

/-- The filter stage of write_entries_csv. -/
def filterEntries (docType : String) (companyFilters tagFilters : List String)
    (logic : String) (entries : List Entry) : List Entry :=
  entries.filter (keepEntry docType companyFilters tagFilters logic)

/-- The filter-and-sort stage of write_entries_csv: the entry sequence that
is subsequently written out row by row. -/
def selectEntries (docType : String) (companyFilters tagFilters : List String)
    (logic : String) (entries : List Entry) : List Entry :=
  sortEntries (filterEntries docType companyFilters tagFilters logic entries)

theorem keyLeB_trans (x y z : Int × Nat × Int) :
    keyLeB x y = true → keyLeB y z = true → keyLeB x z = true := by
  simp only [keyLeB, Bool.or_eq_true, Bool.and_eq_true, decide_eq_true_eq]
  omega

theorem keyLeB_total (x y : Int × Nat × Int) : (keyLeB x y || keyLeB y x) = true := by
  obtain ⟨a, b, c⟩ := x
  obtain ⟨d, e, f⟩ := y
  simp only [keyLeB, Bool.or_eq_true, Bool.and_eq_true, decide_eq_true_eq]
  omega

theorem keyLeB_refl (x : Int × Nat × Int) : keyLeB x x = true := by
  obtain ⟨a, b, c⟩ := x
  simp only [keyLeB, Bool.or_eq_true, Bool.and_eq_true, decide_eq_true_eq, true_and]
  omega

theorem entryLeB_trans (a b c : Entry) :
    entryLeB a b = true → entryLeB b c = true → entryLeB a c = true :=
  keyLeB_trans (pyKey a) (pyKey b) (pyKey c)

theorem entryLeB_total (a b : Entry) : (entryLeB a b || entryLeB b a) = true :=
  keyLeB_total (pyKey a) (pyKey b)

/-- End-date priority as the claim words it: the numeric value of a numeric
end date, and the equal-lowest value 0 for anything non-numeric. -/
def claimEndVal (e : Entry) : Nat := if pyIsDigit e.end_ then pyStrToNat e.end_ else 0

/-- The three sort keys as the claim words them: importance, whether the
end is Current, and the end-date priority. -/
def claimKey (e : Entry) : Int × Bool × Nat :=
  (e.importance, e.end_ == "Current", claimEndVal e)

/-- Entry a may precede entry b under the composite order the claim
describes: importance descending first, then Current before any other end
value, then end-date priority descending. -/
def claimPrecedes (a b : Entry) : Prop :=
  b.importance < a.importance ∨
  (a.importance = b.importance ∧
    ((a.end_ = "Current" ∧ b.end_ ≠ "Current") ∨
     (a.end_ = "Current" ∧ b.end_ = "Current") ∨
     (a.end_ ≠ "Current" ∧ b.end_ ≠ "Current" ∧ claimEndVal b ≤ claimEndVal a)))

theorem entryLeB_claimPrecedes (a b : Entry) (h : entryLeB a b = true) : claimPrecedes a b := by
  unfold entryLeB keyLeB pyKey at h
  unfold claimPrecedes claimEndVal
  by_cases hA : a.end_ = "Current" <;> by_cases hB : b.end_ = "Current" <;>
    by_cases hDA : pyIsDigit a.end_ = true <;> by_cases hDB : pyIsDigit b.end_ = true <;>
    simp_all

theorem pyKey_third_eq (e : Entry) :
    (if pyIsDigit e.end_ then -(pyStrToNat e.end_ : Int) else 0) = -(claimEndVal e : Int) := by
  unfold claimEndVal
  by_cases h : pyIsDigit e.end_ <;> simp [h]

theorem pyKey_of_claimKey (a b : Entry) (h : claimKey a = claimKey b) : pyKey a = pyKey b := by
  simp only [claimKey, Prod.mk.injEq] at h
  obtain ⟨h1, h2, h3⟩ := h
  have hcur : (a.end_ = "Current") ↔ (b.end_ = "Current") := by
    constructor
    · intro hh
      have ha : (a.end_ == "Current") = true := beq_iff_eq.mpr hh
      rw [h2] at ha
      exact beq_iff_eq.mp ha
    · intro hh
      have hb : (b.end_ == "Current") = true := beq_iff_eq.mpr hh
      rw [← h2] at hb
      exact beq_iff_eq.mp hb
  unfold pyKey
  rw [h1, pyKey_third_eq, pyKey_third_eq, h3]
  by_cases hh : a.end_ = "Current"
  · rw [if_pos hh, if_pos (hcur.mp hh)]
  · rw [if_neg hh, if_neg (fun c => hh (hcur.mpr c))]

/-- C2: the entry-export sort orders the filtered entries by the composite
key of the claim (importance descending, then Current, then numeric end
dates descending with non-numeric ends as priority 0), is a permutation of
its input, and is stable: entries equal on all three keys keep their
relative input order (their subsequence is untouched). -/
theorem C2_entry_sort_composite_key (l : List Entry) :
    (sortEntries l).Pairwise claimPrecedes
    ∧ (sortEntries l).Perm l
    ∧ ∀ k : Int × Bool × Nat,
        (sortEntries l).filter (fun e => claimKey e == k)
          = l.filter (fun e => claimKey e == k) := by
  refine ⟨?_, List.mergeSort_perm l entryLeB, ?_⟩
  · exact (List.sorted_mergeSort entryLeB_trans entryLeB_total l).imp
      (fun h => entryLeB_claimPrecedes _ _ h)
  · intro k
    have hself : (l.filter (fun e => claimKey e == k)).filter (fun e => claimKey e == k)
        = l.filter (fun e => claimKey e == k) :=
      List.filter_eq_self.mpr (fun a ha => (List.mem_filter.mp ha).2)
    have hpair : (l.filter (fun e => claimKey e == k)).Pairwise (fun a b => entryLeB a b = true) := by
      apply List.pairwise_of_forall_mem_list
      intro a ha b hb
      have hka : claimKey a = k := by
        have h := (List.mem_filter.mp ha).2
        simpa using h
      have hkb : claimKey b = k := by
        have h := (List.mem_filter.mp hb).2
        simpa using h
      unfold entryLeB
      rw [pyKey_of_claimKey a b (hka.trans hkb.symm)]
      exact keyLeB_refl _
    have h1 : List.Sublist (l.filter (fun e => claimKey e == k)) (sortEntries l) :=
      List.sublist_mergeSort entryLeB_trans entryLeB_total hpair (List.filter_sublist l)
    have h3 : List.Sublist (l.filter (fun e => claimKey e == k))
        ((sortEntries l).filter (fun e => claimKey e == k)) := by
      have h2 := h1.filter (fun e => claimKey e == k)
      rwa [hself] at h2
    have h4 : ((sortEntries l).filter (fun e => claimKey e == k)).length
        = (l.filter (fun e => claimKey e == k)).length :=
      ((List.mergeSort_perm l entryLeB).filter _).length_eq
    exact (h3.eq_of_length h4.symm).symm

theorem passFilters_unknown_logic (logic : String) (filters present : List String)
    (hand : pyLower logic ≠ "and") (hor : pyLower logic ≠ "or") :
    passFilters logic filters present = true := by
  unfold passFilters
  have h1 : (pyLower logic == "and") = false := beq_eq_false_iff_ne.mpr hand
  have h2 : (pyLower logic == "or") = false := beq_eq_false_iff_ne.mpr hor
  simp [h1, h2]

/-- C10: when the filter-logic string lower-cases to neither and nor or,
neither exclusion branch of the filter loop can fire, so the company and
tag filter lists have no effect: exactly the entries tagged with the
document type are kept. -/
theorem C10_unknown_logic_ignores_filters (docType : String) (cf tf : List String)
    (logic : String) (entries : List Entry)
    (hand : pyLower logic ≠ "and") (hor : pyLower logic ≠ "or") :
    filterEntries docType cf tf logic entries
      = entries.filter (fun e => e.tags.contains docType) := by
  unfold filterEntries
  apply List.filter_congr
  intro e _
  unfold keepEntry
  rw [passFilters_unknown_logic logic cf e.companies hand hor,
    passFilters_unknown_logic logic tf e.tags hand hor]
  simp

/-- Sample entries used by concrete witnesses below. -/
def entryResume : Entry :=
  ⟨"teaching_positions", "Lecturer", "City", "Uni", "2018", "Current",
   ["Taught courses"], [], ["resume", "cv", "teaching_positions"], 5⟩

def entryCvOnly : Entry :=
  ⟨"education", "BSc", "Town", "College", "2010", "2014",
   ["Studied"], ["acme"], ["cv", "education"], 3⟩

/-- Witness for C10 with the unknown logic value xor. -/
theorem C10_unknown_logic_ignores_filters_witness :
    (pyLower "xor" ≠ "and" ∧ pyLower "xor" ≠ "or")
    ∧ filterEntries "resume" ["acme"] ["teaching"] "xor" [entryResume, entryCvOnly]
        = [entryResume, entryCvOnly].filter (fun e => e.tags.contains "resume") :=
  ⟨⟨by decide, by decide⟩,
   C10_unknown_logic_ignores_filters "resume" ["acme"] ["teaching"] "xor"
     [entryResume, entryCvOnly] (by decide) (by decide)⟩

/-- C9: the filter-and-sort stage of write_entries_csv is idempotent:
applied to its own output with the same arguments it returns that output
unchanged, because every surviving entry passes the same filters again and
a sorted list is left untouched by the stable sort. -/
theorem C9_select_idempotent (docType : String) (cf tf : List String)
    (logic : String) (entries : List Entry) :
    selectEntries docType cf tf logic (selectEntries docType cf tf logic entries)
      = selectEntries docType cf tf logic entries := by
  unfold selectEntries
  have hfix : filterEntries docType cf tf logic
      (sortEntries (filterEntries docType cf tf logic entries))
      = sortEntries (filterEntries docType cf tf logic entries) := by
    apply List.filter_eq_self.mpr
    intro a ha
    have ha' : a ∈ filterEntries docType cf tf logic entries := by
      unfold sortEntries at ha
      exact List.mem_mergeSort.mp ha
    exact (List.mem_filter.mp ha').2
  rw [hfix]
  exact List.mergeSort_of_sorted (List.sorted_mergeSort entryLeB_trans entryLeB_total _)

/-- Python set.add: CPython iteration order of a set is hash-based and
unspecified (and changes across runs under hash randomisation); the
deterministic stand-in used here keeps first-insertion order.  What
matters for the claims is that write_entries_csv applies no sort to it. -/
def pySetAdd (s : List String) (x : String) : List String :=
  if x ∈ s then s else s ++ [x]

/-- Python set.update with an iterable of strings. -/
def pySetUpdate (s : List String) (xs : List String) : List String :=
  xs.foldl pySetAdd s

/-- The all_companies set built by write_entries_csv (lines 115-117) from
every entry of the document, filtered or not. -/
def all_companies (entries : List Entry) : List String :=
  entries.foldl (fun s e => pySetUpdate s e.companies) []

/-- The company_<name> header cells emitted at line 119, in set-iteration
order (no sort in the code). -/
def company_headers (entries : List Entry) : List String :=
  (all_companies entries).map (fun c => "company_" ++ c)

/-- The TRUE/FALSE company cells of one data row (lines 162-164), iterating
the same set in the same order as the headers. -/
def company_flags (entries : List Entry) (e : Entry) : List String :=
  (all_companies entries).map (fun c => if e.companies.contains c then "TRUE" else "FALSE")

theorem mem_pySetAdd (s : List String) (x c : String) :
    c ∈ pySetAdd s x ↔ c ∈ s ∨ c = x := by
  unfold pySetAdd
  by_cases h : x ∈ s
  · rw [if_pos h]
    constructor
    · exact Or.inl
    · rintro (hc | rfl)
      · exact hc
      · exact h
  · rw [if_neg h]
    simp [List.mem_append]

theorem nodup_pySetAdd (s : List String) (x : String) (hs : s.Nodup) :
    (pySetAdd s x).Nodup := by
  unfold pySetAdd
  by_cases h : x ∈ s
  · rwa [if_pos h]
  · rw [if_neg h]
    refine List.Nodup.append hs (by simp) ?_
    intro a ha hax
    simp only [List.mem_singleton] at hax
    subst hax
    exact h ha

theorem mem_pySetUpdate (s xs : List String) (c : String) :
    c ∈ pySetUpdate s xs ↔ c ∈ s ∨ c ∈ xs := by
  induction xs generalizing s with
  | nil => simp [pySetUpdate]
  | cons x xs ih =>
    unfold pySetUpdate at ih ⊢
    simp only [List.foldl_cons]
    rw [ih (pySetAdd s x), mem_pySetAdd]
    simp only [List.mem_cons]
    tauto

theorem nodup_pySetUpdate (s xs : List String) (hs : s.Nodup) :
    (pySetUpdate s xs).Nodup := by
  induction xs generalizing s with
  | nil => simpa [pySetUpdate]
  | cons x xs ih =>
    unfold pySetUpdate at ih ⊢
    simp only [List.foldl_cons]
    exact ih _ (nodup_pySetAdd _ _ hs)

theorem mem_all_companies (entries : List Entry) (c : String) :
    c ∈ all_companies entries ↔ ∃ e, e ∈ entries ∧ c ∈ e.companies := by
  suffices h : ∀ s, c ∈ entries.foldl (fun s e => pySetUpdate s e.companies) s
      ↔ c ∈ s ∨ ∃ e, e ∈ entries ∧ c ∈ e.companies by
    simpa [all_companies] using h []
  induction entries with
  | nil => intro s; simp
  | cons e es ih =>
    intro s
    simp only [List.foldl_cons]
    rw [ih, mem_pySetUpdate]
    simp only [List.mem_cons]
    constructor
    · rintro ((hc | hc) | ⟨x, hx, hcx⟩)
      · exact Or.inl hc
      · exact Or.inr ⟨e, Or.inl rfl, hc⟩
      · exact Or.inr ⟨x, Or.inr hx, hcx⟩
    · rintro (hc | ⟨x, (rfl | hx), hcx⟩)
      · exact Or.inl (Or.inl hc)
      · exact Or.inl (Or.inr hcx)
      · exact Or.inr ⟨x, hx, hcx⟩

theorem nodup_all_companies (entries : List Entry) : (all_companies entries).Nodup := by
  suffices h : ∀ s : List String, s.Nodup →
      (entries.foldl (fun s e => pySetUpdate s e.companies) s).Nodup by
    exact h [] (by simp)
  induction entries with
  | nil => intro s hs; simpa
  | cons e es ih =>
    intro s hs
    simp only [List.foldl_cons]
    exact ih _ (nodup_pySetUpdate _ _ hs)

/-- Sample entry whose companies arrive in non-alphabetical order. -/
def entryTwoCompanies : Entry :=
  ⟨"work", "Job", "L", "I", "2019", "2020", [], ["beta", "alpha"], ["cv"], 1⟩

/-- The company columns are emitted in set-iteration order, which the code
never sorts: with companies first seen in the order beta, alpha the
headers come out in that order, and company_beta does not precede
company_alpha lexicographically, refuting the claimed sorted order. -/
theorem C6_company_columns_counterexample :
    company_headers [entryTwoCompanies] = ["company_beta", "company_alpha"]
    ∧ strLeB "company_beta" "company_alpha" = false := by
  constructor
  · rfl
  · rfl

/-- Amended C6: one boolean column per company name observed anywhere in
the entries with no duplicate column (set semantics), in the unspecified
set-iteration order rather than sorted; each data row carries, at the same
position as each company column, TRUE when the entry has the company and
FALSE otherwise (never an omitted cell). -/
theorem C6_company_columns_amended (entries : List Entry) (e : Entry) (i : Nat)
    (hi : i < (all_companies entries).length) :
    (all_companies entries).Nodup
    ∧ (∀ c, c ∈ all_companies entries ↔ ∃ x, x ∈ entries ∧ c ∈ x.companies)
    ∧ (company_flags entries e).length = (company_headers entries).length
    ∧ (company_flags entries e).getD i ""
        = (if e.companies.contains ((all_companies entries).getD i "") then "TRUE" else "FALSE") := by
  refine ⟨nodup_all_companies entries, fun c => mem_all_companies entries c,
    by simp [company_flags, company_headers], ?_⟩
  unfold company_flags
  have hc : (all_companies entries)[i]? = some ((all_companies entries).get ⟨i, hi⟩) :=
    List.getElem?_eq_getElem hi
  rw [List.getD_eq_getElem?_getD, List.getD_eq_getElem?_getD, List.getElem?_map, hc]
  simp

/-- Witness for the amended C6 at a concrete document. -/
theorem C6_company_columns_amended_witness :
    (0 < (all_companies [entryTwoCompanies]).length)
    ∧ ((all_companies [entryTwoCompanies]).Nodup
      ∧ (∀ c, c ∈ all_companies [entryTwoCompanies]
          ↔ ∃ x, x ∈ [entryTwoCompanies] ∧ c ∈ x.companies)
      ∧ (company_flags [entryTwoCompanies] entryCvOnly).length
          = (company_headers [entryTwoCompanies]).length
      ∧ (company_flags [entryTwoCompanies] entryCvOnly).getD 0 ""
          = (if entryCvOnly.companies.contains ((all_companies [entryTwoCompanies]).getD 0 "")
             then "TRUE" else "FALSE")) :=
  ⟨by decide, C6_company_columns_amended [entryTwoCompanies] entryCvOnly 0 (by decide)⟩

/-- Python dict lookup row[key]; the keys fed to it below always exist. -/
def pyDictGet (row : List (String × String)) (k : String) : String :=
  match row.find? (fun p => p.1 == k) with
  | some p => p.2
  | none => ""

/-- The keys iterated by the description loop of parse_entries_csv
(csv_to_json_converter.py line 83): the column names starting with
description_, sorted by the Python string order, which is lexicographic by
code point, not numeric on the index. -/
def description_keys (row : List (String × String)) : List String :=
  ((row.map Prod.fst).filter (fun k => strStartsWith k "description_")).mergeSort strLeB

/-- The descriptions list built at lines 82-85: the nonempty cells of the
description_ columns in sorted key order. -/
def collect_descriptions (row : List (String × String)) : List String :=
  (description_keys row).filterMap
    (fun k => if pyDictGet row k = "" then none else some (pyDictGet row k))

unseal List.merge List.mergeSort in
/-- With ten description columns the lexicographic key order puts
description_10 directly after description_1, so the collapsed list
interleaves the tenth cell after the first instead of following the
numeric indices 1..10. -/
theorem C5_description_order_counterexample :
    collect_descriptions
        [("description_1", "a"), ("description_2", "b"), ("description_3", "c"),
         ("description_4", "d"), ("description_5", "e"), ("description_6", "f"),
         ("description_7", "g"), ("description_8", "h"), ("description_9", "i"),
         ("description_10", "j")]
      = ["a", "j", "b", "c", "d", "e", "f", "g", "h", "i"]
    ∧ (["a", "j", "b", "c", "d", "e", "f", "g", "h", "i"] : List String)
        ≠ ["a", "b", "c", "d", "e", "f", "g", "h", "i", "j"] := by
  constructor
  · rfl
  · decide

/-- The column name description_(n+1). -/
def descKey (n : Nat) : String := "description_" ++ toString (n + 1)

/-- A row holding only description columns with consecutive indices
starting at k+1, with the given cell values. -/
def descRowFrom : Nat → List String → List (String × String)
  | _, [] => []
  | k, v :: vs => (descKey k, v) :: descRowFrom (k + 1) vs

/-- The corresponding key list. -/
def descKeysFrom : Nat → Nat → List String
  | _, 0 => []
  | k, n + 1 => descKey k :: descKeysFrom (k + 1) n

theorem descKey_startsWith :
    ∀ i : Fin 9, strStartsWith (descKey i.1) "description_" = true := by decide

theorem descKey_le :
    ∀ i j : Fin 9, i.1 ≤ j.1 → strLeB (descKey i.1) (descKey j.1) = true := by decide

theorem descKey_beq :
    ∀ i j : Fin 9, (descKey i.1 == descKey j.1) = decide (i.1 = j.1) := by decide

theorem map_fst_descRowFrom (vs : List String) (k : Nat) :
    (descRowFrom k vs).map Prod.fst = descKeysFrom k vs.length := by
  induction vs generalizing k with
  | nil => simp [descRowFrom, descKeysFrom]
  | cons v vs ih => simp [descRowFrom, descKeysFrom, ih]

theorem mem_descKeysFrom (x : String) (n k : Nat) :
    x ∈ descKeysFrom k n ↔ ∃ j, j < n ∧ x = descKey (k + j) := by
  induction n generalizing k with
  | zero => simp [descKeysFrom]
  | succ n ih =>
    simp only [descKeysFrom, List.mem_cons, ih (k + 1)]
    constructor
    · rintro (rfl | ⟨j, hj, rfl⟩)
      · exact ⟨0, by omega, by simp⟩
      · refine ⟨j + 1, by omega, ?_⟩
        have : k + 1 + j = k + (j + 1) := by omega
        rw [this]
    · rintro ⟨j, hj, rfl⟩
      match j with
      | 0 => exact Or.inl (by simp)
      | j + 1 =>
        refine Or.inr ⟨j, by omega, ?_⟩
        have : k + (j + 1) = k + 1 + j := by omega
        rw [this]

theorem filter_descKeysFrom (n k : Nat) (h : k + n ≤ 9) :
    (descKeysFrom k n).filter (fun s => strStartsWith s "description_")
      = descKeysFrom k n := by
  apply List.filter_eq_self.mpr
  intro x hx
  obtain ⟨j, hj, rfl⟩ := (mem_descKeysFrom x n k).mp hx
  exact descKey_startsWith ⟨k + j, by omega⟩

theorem pairwise_descKeysFrom (n k : Nat) (h : k + n ≤ 9) :
    (descKeysFrom k n).Pairwise (fun a b => strLeB a b = true) := by
  induction n generalizing k with
  | zero => simp [descKeysFrom]
  | succ n ih =>
    refine List.Pairwise.cons ?_ (ih (k + 1) (by omega))
    intro b hb
    obtain ⟨j, hj, rfl⟩ := (mem_descKeysFrom b n (k + 1)).mp hb
    exact descKey_le ⟨k, by omega⟩ ⟨k + 1 + j, by omega⟩ (by show k ≤ k + 1 + j; omega)

theorem description_keys_descRowFrom (vs : List String) (k : Nat) (h : k + vs.length ≤ 9) :
    description_keys (descRowFrom k vs) = descKeysFrom k vs.length := by
  unfold description_keys
  rw [map_fst_descRowFrom, filter_descKeysFrom _ _ h]
  exact List.mergeSort_of_sorted (pairwise_descKeysFrom _ _ h)

theorem pyDictGet_head (k : Nat) (v : String) (rest : List (String × String)) :
    pyDictGet ((descKey k, v) :: rest) (descKey k) = v := by
  simp [pyDictGet, List.find?]

theorem pyDictGet_tail (k k' : Nat) (hk : k ≠ k') (hk9 : k < 9) (hk9' : k' < 9)
    (v : String) (rest : List (String × String)) :
    pyDictGet ((descKey k, v) :: rest) (descKey k') = pyDictGet rest (descKey k') := by
  have hbeq : (descKey k == descKey k') = false := by
    rw [descKey_beq ⟨k, hk9⟩ ⟨k', hk9'⟩]
    simp [hk]
  simp [pyDictGet, List.find?, hbeq]

theorem filterMap_eq_of_agree {α β : Type} (f g : α → Option β) :
    ∀ l : List α, (∀ a ∈ l, f a = g a) → l.filterMap f = l.filterMap g := by
  intro l
  induction l with
  | nil => intro _; rfl
  | cons x xs ih =>
    intro h
    rw [List.filterMap_cons, List.filterMap_cons, h x (by simp),
      ih (fun a ha => h a (by simp [ha]))]

theorem collect_descRowFrom (vs : List String) (k : Nat) (h : k + vs.length ≤ 9) :
    collect_descriptions (descRowFrom k vs) = vs.filter (fun v => v ≠ "") := by
  induction vs generalizing k with
  | nil => simp [collect_descriptions, description_keys, descRowFrom]
  | cons v vs ih =>
    have h' : k + vs.length + 1 ≤ 9 := by
      simp only [List.length_cons] at h
      omega
    unfold collect_descriptions
    rw [description_keys_descRowFrom _ _ h]
    simp only [List.length_cons, descKeysFrom, List.filterMap_cons]
    have htail :
        (descKeysFrom (k + 1) vs.length).filterMap
            (fun kk => if pyDictGet (descRowFrom k (v :: vs)) kk = "" then none
                       else some (pyDictGet (descRowFrom k (v :: vs)) kk))
          = (descKeysFrom (k + 1) vs.length).filterMap
            (fun kk => if pyDictGet (descRowFrom (k + 1) vs) kk = "" then none
                       else some (pyDictGet (descRowFrom (k + 1) vs) kk)) := by
      apply filterMap_eq_of_agree
      intro kk hkk
      obtain ⟨j, hj, rfl⟩ := (mem_descKeysFrom kk vs.length (k + 1)).mp hkk
      have hget : pyDictGet (descRowFrom k (v :: vs)) (descKey (k + 1 + j))
          = pyDictGet (descRowFrom (k + 1) vs) (descKey (k + 1 + j)) := by
        show pyDictGet ((descKey k, v) :: descRowFrom (k + 1) vs) (descKey (k + 1 + j))
          = pyDictGet (descRowFrom (k + 1) vs) (descKey (k + 1 + j))
        exact pyDictGet_tail k (k + 1 + j) (by omega) (by omega) (by omega) v _
      rw [hget]
    have hcollect :
        (descKeysFrom (k + 1) vs.length).filterMap
            (fun kk => if pyDictGet (descRowFrom (k + 1) vs) kk = "" then none
                       else some (pyDictGet (descRowFrom (k + 1) vs) kk))
          = collect_descriptions (descRowFrom (k + 1) vs) := by
      unfold collect_descriptions
      rw [description_keys_descRowFrom _ _ (show (k + 1) + vs.length ≤ 9 by omega)]
    rw [htail, hcollect, ih (k + 1) (by omega)]
    have hhead : pyDictGet (descRowFrom k (v :: vs)) (descKey k) = v := by
      show pyDictGet ((descKey k, v) :: descRowFrom (k + 1) vs) (descKey k) = v
      exact pyDictGet_head k v _
    rw [hhead, List.filter_cons]
    by_cases hv : v = ""
    · simp [hv]
    · simp [hv]

theorem collect_descriptions_no_empty (row : List (String × String)) (s : String)
    (hs : s ∈ collect_descriptions row) : s ≠ "" := by
  unfold collect_descriptions at hs
  obtain ⟨k, _, hsk⟩ := List.mem_filterMap.mp hs
  by_cases h : pyDictGet row k = ""
  · simp [h] at hsk
  · rw [if_neg h] at hsk
    rw [← Option.some.inj hsk]
    exact h

/-- Amended C5: the collapsed descriptions list never contains an empty
string, and it follows ascending NUMERIC index order only while every
description index is a single digit (at most 9 columns); the true order is
ascending lexicographic column-name order (see the counterexample with 10
columns). -/
theorem C5_description_collapse_amended (row : List (String × String)) (s : String)
    (hs : s ∈ collect_descriptions row) (vs : List String) (h9 : vs.length ≤ 9) :
    s ≠ "" ∧ collect_descriptions (descRowFrom 0 vs) = vs.filter (fun v => v ≠ "") :=
  ⟨collect_descriptions_no_empty row s hs, collect_descRowFrom vs 0 (by omega)⟩

unseal List.merge List.mergeSort in
/-- Witness for the amended C5 on a sparse three-column row. -/
theorem C5_description_collapse_amended_witness :
    ("b" ∈ collect_descriptions [("description_1", "b")]
      ∧ (["alpha", "", "gamma"] : List String).length ≤ 9)
    ∧ ("b" ≠ ""
      ∧ collect_descriptions (descRowFrom 0 ["alpha", "", "gamma"])
          = ["alpha", "", "gamma"].filter (fun v => v ≠ "")) :=
  ⟨⟨by decide, by decide⟩,
   C5_description_collapse_amended [("description_1", "b")] "b" (by decide)
     ["alpha", "", "gamma"] (by decide)⟩

/-- Which AI service score_entry_relevance talks to; the CLI restricts the
choice to these two. -/
inductive Service where
  | openai
  | claude
deriving DecidableEq

/-- Outcome of one scoring call as seen by score_entry_relevance: a parsed
JSON object (with the score, reasoning and improved-description fields,
defaults already applied), a response body that is not valid JSON (carrying
the message of the JSONDecodeError the strict parser raises on it), or an
exception raised anywhere in the call, carrying str(e). -/
inductive ScoreResp where
  | ok (score : ℚ) (reasoning : String) (improved : List String)
  | badJson (errMsg : String)
  | exn (msg : String)
deriving DecidableEq

/-- score_entry_relevance (ai_cv_generator.py lines 688-832): a parsed
response is returned as is; an exception yields score 0 with reasoning
Error: str(e); a response that fails JSON parsing yields score 0 through
the same except branch on the openai path, but on the claude path the
json.JSONDecodeError handler at lines 820-828 returns the neutral score
5.0 with a fixed message instead. -/
def score_entry_relevance (service : Service) (resp : ScoreResp) : ℚ × String × List String :=
  match resp with
  | ScoreResp.exn m => (0, "Error: " ++ m, [])
  | ScoreResp.ok q r d => (q, r, d)
  | ScoreResp.badJson m =>
    match service with
    | Service.openai => (0, "Error: " ++ m, [])
    | Service.claude => (5, "Unable to parse Claude response as JSON. Using default score.", [])

/-- One scored entry of create_tailored_json: the shallow copy of the
entry (descriptions possibly replaced by the improved suggestions) plus
the attached relevance fields. -/
structure ScoredEntry where
  entry : Entry
  relevance_score : ℚ
  relevance_reasoning : String
  original_descriptions : Option (List String)
deriving DecidableEq

/-- The scored copy built at ai_cv_generator.py lines 898-907: descriptions
are replaced only when improvement is enabled and the suggestion list is
nonempty (a truthy Python list), in which case the prior value is kept
under original_descriptions. -/
def mkScoredEntry (improve : Bool) (en : Entry) (r : ℚ × String × List String) : ScoredEntry :=
  if improve && !r.2.2.isEmpty then
    { entry := { en with descriptions := r.2.2 }
      relevance_score := r.1
      relevance_reasoning := r.2.1
      original_descriptions := some en.descriptions }
  else
    { entry := en
      relevance_score := r.1
      relevance_reasoning := r.2.1
      original_descriptions := none }

/-- The scoring loop of create_tailored_json (lines 893-908): every entry
is scored independently, pairing entry i with the outcome of its own
scoring call. -/
def scoreEntries (service : Service) (improve : Bool)
    (entries : List Entry) (resps : List ScoreResp) : List ScoredEntry :=
  (entries.zip resps).map (fun p => mkScoredEntry improve p.1 (score_entry_relevance service p.2))

/-- On the claude path a malformed (non-JSON) scorer response produces the
neutral score 5, not the score 0 the claim requires, with a fixed message
rather than the failure text. -/
theorem C4_scoring_failure_counterexample :
    score_entry_relevance Service.claude (ScoreResp.badJson "Expecting value: line 1 column 1")
      = (5, "Unable to parse Claude response as JSON. Using default score.", [])
    ∧ (5 : ℚ) ≠ 0 := by
  constructor
  · rfl
  · decide

theorem mkScoredEntry_score (improve : Bool) (en : Entry) (r : ℚ × String × List String) :
    (mkScoredEntry improve en r).relevance_score = r.1
    ∧ (mkScoredEntry improve en r).relevance_reasoning = r.2.1 := by
  unfold mkScoredEntry
  split
  · exact ⟨rfl, rfl⟩
  · exact ⟨rfl, rfl⟩

/-- Placeholder entry for positional getD statements. -/
def dummyEntry : Entry := ⟨"", "", "", "", "", "", [], [], [], 0⟩

/-- Placeholder scored entry for positional getD statements. -/
def dummyScored : ScoredEntry := ⟨dummyEntry, 0, "", none⟩

theorem scoreEntries_getD (service : Service) (improve : Bool) :
    ∀ (entries : List Entry) (resps : List ScoreResp) (i : Nat),
      i < entries.length → i < resps.length →
      (scoreEntries service improve entries resps).getD i dummyScored
        = mkScoredEntry improve (entries.getD i dummyEntry)
            (score_entry_relevance service (resps.getD i (ScoreResp.exn ""))) := by
  intro entries
  induction entries with
  | nil => intro resps i hi _; simp at hi
  | cons e es ih =>
    intro resps i hi hr
    match resps, i with
    | [], _ => simp at hr
    | r :: rs, 0 => simp [scoreEntries]
    | r :: rs, i + 1 =>
      have h1 : i < es.length := by simpa using hi
      have h2 : i < rs.length := by simpa using hr
      have := ih rs i h1 h2
      simpa [scoreEntries] using this

/-- Amended C4: an entry whose scoring call raises gets score exactly 0
with reasoning Error: message, nothing is propagated, and every other
entry gets exactly the score of its own response: a parsed response keeps
its score and reasoning, while a malformed response yields 0 with the
decode-error text on openai but the neutral score 5 with a fixed message
on claude; the batch always completes with one scored entry per input
entry. -/
theorem C4_scoring_failure_isolation_amended (service : Service) (improve : Bool)
    (entries : List Entry) (resps : List ScoreResp) (i : Nat)
    (hlen : entries.length = resps.length) (hi : i < entries.length) :
    (scoreEntries service improve entries resps).length = entries.length
    ∧ (∀ m, resps.getD i (ScoreResp.exn "") = ScoreResp.exn m →
        ((scoreEntries service improve entries resps).getD i dummyScored).relevance_score = 0
        ∧ ((scoreEntries service improve entries resps).getD i dummyScored).relevance_reasoning
            = "Error: " ++ m)
    ∧ (∀ q r d, resps.getD i (ScoreResp.exn "") = ScoreResp.ok q r d →
        ((scoreEntries service improve entries resps).getD i dummyScored).relevance_score = q
        ∧ ((scoreEntries service improve entries resps).getD i dummyScored).relevance_reasoning
            = r) := by
  have hgetD := scoreEntries_getD service improve entries resps i hi (hlen ▸ hi)
  refine ⟨?_, ?_, ?_⟩
  · simp [scoreEntries, hlen]
  · intro m hm
    rw [hgetD, hm]
    exact mkScoredEntry_score improve _ _
  · intro q r d hok
    rw [hgetD, hok]
    exact mkScoredEntry_score improve _ _

/-- Concrete five-entry batch whose third scoring call raises. -/
def fiveEntries : List Entry :=
  [dummyEntry, dummyEntry, dummyEntry, dummyEntry, dummyEntry]

/-- The matching scorer outcomes: entries 1, 2, 4, 5 parse fine, entry 3
raises. -/
def fiveResps : List ScoreResp :=
  [ScoreResp.ok 8 "good" [], ScoreResp.ok 6 "fair" [], ScoreResp.exn "boom",
   ScoreResp.ok 4 "weak" [], ScoreResp.ok 9 "great" []]

/-- Witness for the amended C4: entry 3 of 5 raises and gets score 0 with
the error text while the batch still has five scored entries. -/
theorem C4_scoring_failure_isolation_amended_witness :
    (fiveEntries.length = fiveResps.length ∧ 2 < fiveEntries.length
      ∧ fiveResps.getD 2 (ScoreResp.exn "") = ScoreResp.exn "boom")
    ∧ (((scoreEntries Service.claude false fiveEntries fiveResps).getD 2 dummyScored).relevance_score = 0
      ∧ ((scoreEntries Service.claude false fiveEntries fiveResps).getD 2 dummyScored).relevance_reasoning
          = "Error: " ++ "boom") :=
  ⟨⟨by decide, by decide, by decide⟩,
   (C4_scoring_failure_isolation_amended Service.claude false fiveEntries fiveResps 2
      (by decide) (by decide)).2.1 "boom" (by decide)⟩

/-- One step of the section-grouping loop of create_tailored_json (lines
910-915): a Python dict of lists keyed by section, in first-encounter
order, appending each entry to the list of its own key. -/
def addToGroups {α : Type} : List (String × List α) → String → α → List (String × List α)
  | [], k, x => [(k, [x])]
  | (k', xs) :: rest, k, x =>
    if k' = k then (k', xs ++ [x]) :: rest else (k', xs) :: addToGroups rest k x

/-- The section_entries dict after the full grouping loop. -/
def groupByKey {α : Type} (key : α → String) (l : List α) : List (String × List α) :=
  l.foldl (fun gs x => addToGroups gs (key x) x) []

/-- Lookup of one bucket of the grouping dict. -/
def findGroup {α : Type} (gs : List (String × List α)) (k : String) : Option (List α) :=
  (gs.find? (fun p => p.1 == k)).map Prod.snd

theorem addToGroups_keys {α : Type} (gs : List (String × List α)) (k : String) (x : α) :
    (addToGroups gs k x).map Prod.fst
      = if k ∈ gs.map Prod.fst then gs.map Prod.fst else gs.map Prod.fst ++ [k] := by
  induction gs with
  | nil => simp [addToGroups]
  | cons g rest ih =>
    obtain ⟨k', xs⟩ := g
    by_cases h : k' = k
    · subst h
      simp [addToGroups]
    · simp only [addToGroups, if_neg h, List.map_cons, ih]
      by_cases hmem : k ∈ rest.map Prod.fst
      · rw [if_pos hmem, if_pos (List.mem_cons.mpr (Or.inr hmem))]
      · have hcons : ¬ k ∈ k' :: rest.map Prod.fst := by
          intro hc
          rcases List.mem_cons.mp hc with hc | hc
          · exact h hc.symm
          · exact hmem hc
        rw [if_neg hmem, if_neg hcons]
        simp

theorem findGroup_addToGroups {α : Type} (gs : List (String × List α)) (k : String) (x : α)
    (j : String) :
    findGroup (addToGroups gs k x) j
      = if j = k then some ((findGroup gs k).getD [] ++ [x]) else findGroup gs j := by
  induction gs with
  | nil =>
    by_cases h : j = k
    · subst h
      simp [addToGroups, findGroup]
    · have : (k == j) = false := beq_eq_false_iff_ne.mpr (fun hh => h hh.symm)
      simp [addToGroups, findGroup, List.find?, this, h]
  | cons g rest ih =>
    obtain ⟨k', xs⟩ := g
    by_cases hk : k' = k
    · subst hk
      by_cases hj : j = k'
      · subst hj
        simp [addToGroups, findGroup, List.find?]
      · have hbeq : (k' == j) = false := beq_eq_false_iff_ne.mpr (fun hh => hj hh.symm)
        simp [addToGroups, findGroup, List.find?, hbeq, hj]
    · by_cases hj : j = k'
      · have hjk : ¬ j = k := fun hh => hk (hj.symm.trans hh)
        have hbeq : (k' == j) = true := beq_iff_eq.mpr hj.symm
        have hbk : (k' == k) = false := beq_eq_false_iff_ne.mpr hk
        simp [addToGroups, if_neg hk, findGroup, List.find?, hbeq, hbk, hjk]
      · have hbeq : (k' == j) = false := beq_eq_false_iff_ne.mpr (fun hh => hj hh.symm)
        have hbk : (k' == k) = false := beq_eq_false_iff_ne.mpr hk
        have hih := ih
        simp only [addToGroups, if_neg hk, findGroup, List.find?, hbeq, hbk] at hih ⊢
        exact hih

theorem findGroup_foldl {α : Type} (key : α → String) (l : List α) (j : String) :
    ∀ gs : List (String × List α),
      findGroup (l.foldl (fun gs x => addToGroups gs (key x) x) gs) j
        = if l.any (fun x => key x == j) then
            some ((findGroup gs j).getD [] ++ l.filter (fun x => key x == j))
          else findGroup gs j := by
  induction l with
  | nil => intro gs; simp
  | cons x xs ih =>
    intro gs
    simp only [List.foldl_cons]
    rw [ih (addToGroups gs (key x) x)]
    by_cases hx : key x = j
    · have hbeq : (key x == j) = true := beq_iff_eq.mpr hx
      have hgs' := findGroup_addToGroups gs (key x) x j
      rw [if_pos hx.symm] at hgs'
      by_cases hxs : xs.any (fun y => key y == j) = true
      · rw [if_pos hxs, hgs']
        simp [List.any_cons, hbeq, List.filter_cons]
        rw [hx]
      · have hxs' : xs.any (fun y => key y == j) = false := by
          cases hh : xs.any (fun y => key y == j)
          · rfl
          · exact absurd hh hxs
        have hnil : xs.filter (fun y => key y == j) = [] := by
          rw [List.filter_eq_nil_iff]
          intro a ha
          have := (List.any_eq_false.mp hxs') a ha
          simpa using this
        rw [if_neg hxs, hgs']
        simp [List.any_cons, hbeq, List.filter_cons, hnil]
        rw [hx]
    · have hbeq : (key x == j) = false := beq_eq_false_iff_ne.mpr hx
      have hgs' := findGroup_addToGroups gs (key x) x j
      rw [if_neg (fun hh => hx hh.symm)] at hgs'
      rw [hgs']
      simp [List.any_cons, hbeq, List.filter_cons]

theorem nodup_keys_groupByKey {α : Type} (key : α → String) (l : List α) :
    ((groupByKey key l).map Prod.fst).Nodup := by
  suffices h : ∀ gs : List (String × List α), (gs.map Prod.fst).Nodup →
      (((l.foldl (fun gs x => addToGroups gs (key x) x) gs)).map Prod.fst).Nodup by
    exact h [] (by simp)
  induction l with
  | nil => intro gs h; simpa
  | cons x xs ih =>
    intro gs h
    simp only [List.foldl_cons]
    apply ih
    rw [addToGroups_keys]
    by_cases hmem : key x ∈ gs.map Prod.fst
    · rwa [if_pos hmem]
    · rw [if_neg hmem]
      refine h.append (by simp) ?_
      intro a ha hb
      simp only [List.mem_singleton] at hb
      subst hb
      exact hmem ha

theorem findGroup_of_mem {α : Type} (gs : List (String × List α))
    (hnd : (gs.map Prod.fst).Nodup) (p : String × List α) (hp : p ∈ gs) :
    findGroup gs p.1 = some p.2 := by
  induction gs with
  | nil => simp at hp
  | cons g rest ih =>
    rcases List.mem_cons.mp hp with rfl | hp'
    · simp [findGroup, List.find?]
    · have hnd2 : ¬ g.1 ∈ rest.map Prod.fst ∧ (rest.map Prod.fst).Nodup := by
        rw [List.map_cons, List.nodup_cons] at hnd
        exact hnd
      have hg : g.1 ≠ p.1 := by
        intro hh
        have hmem : p.1 ∈ rest.map Prod.fst := List.mem_map.mpr ⟨p, hp', rfl⟩
        rw [hh] at hnd2
        exact hnd2.1 hmem
      have hbeq : (g.1 == p.1) = false := beq_eq_false_iff_ne.mpr hg
      have hnd' : (rest.map Prod.fst).Nodup := hnd2.2
      have := ih hnd' hp'
      simp only [findGroup, List.find?, hbeq] at this ⊢
      exact this

theorem findGroup_groupByKey {α : Type} (key : α → String) (l : List α) (j : String) :
    findGroup (groupByKey key l) j
      = if l.any (fun x => key x == j) then some (l.filter (fun x => key x == j)) else none := by
  have h := findGroup_foldl key l j []
  have hnone : findGroup ([] : List (String × List α)) j = none := rfl
  rw [hnone] at h
  simpa [groupByKey] using h

theorem bucket_eq_filter {α : Type} (key : α → String) (l : List α)
    (p : String × List α) (hp : p ∈ groupByKey key l) :
    p.2 = l.filter (fun x => key x == p.1) := by
  have h1 := findGroup_of_mem _ (nodup_keys_groupByKey key l) p hp
  have h2 := findGroup_groupByKey key l p.1
  by_cases hany : l.any (fun x => key x == p.1) = true
  · rw [if_pos hany, h1] at h2
    exact Option.some.inj h2
  · rw [if_neg hany, h1] at h2
    exact absurd h2 (by simp)

theorem filter_eq_nil_of_not_key {α : Type} (key : α → String) (l : List α) (s : String)
    (hs : ¬ s ∈ (groupByKey key l).map Prod.fst) :
    l.filter (fun x => key x == s) = [] := by
  by_cases hany : l.any (fun x => key x == s) = true
  · exfalso
    have h2 := findGroup_groupByKey key l s
    rw [if_pos hany] at h2
    unfold findGroup at h2
    cases hfind : (groupByKey key l).find? (fun p => p.1 == s) with
    | none => rw [hfind] at h2; simp at h2
    | some q =>
      have hq : q ∈ groupByKey key l := List.mem_of_find?_eq_some hfind
      have hqs' := List.find?_some hfind
      have hqs : q.1 = s := by simpa using hqs'
      apply hs
      exact List.mem_map.mpr ⟨q, hq, hqs⟩
  · rw [List.filter_eq_nil_iff]
    intro a ha
    have hfalse : l.any (fun x => key x == s) = false := by
      cases hh : l.any (fun x => key x == s)
      · rfl
      · exact absurd hh hany
    have := (List.any_eq_false.mp hfalse) a ha
    simpa using this

/-- max_entries_per_section.get(section, 2) at line 926: the per-section
cap with default 2 for a section not listed. -/
def capFor (caps : List (String × Nat)) (s : String) : Nat :=
  ((caps.find? (fun p => p.1 == s)).map Prod.snd).getD 2

/-- The default cap dictionary of create_tailored_json (lines 880-891). -/
def default_max_entries_per_section : List (String × Nat) :=
  [("current_position", 2), ("education", 2), ("research_positions", 3),
   ("awards_and_honors", 3), ("teaching_positions", 2), ("academic_articles", 3),
   ("software", 3), ("invited_speaker", 2), ("mentorship", 2)]

/-- The comparison of the per-section sort at line 921: sort by relevance
score with reverse=True, a stable descending sort, so a comes before b
exactly when score b <= score a. -/
def scoreDescLe {α : Type} (score : α → ℚ) (a b : α) : Bool := decide (score b ≤ score a)

/-- The per-section selection of create_tailored_json (lines 919-929):
stable-sort the group by score descending, take at most the cap, then drop
everything scoring below 3. -/
def sectionSelect {α : Type} (score : α → ℚ) (cap : Nat) (es : List α) : List α :=
  ((es.mergeSort (scoreDescLe score)).take cap).filter (fun e => decide (3 ≤ score e))

/-- The full grouped selection (lines 910-934): group by section in
first-encounter order, select per section, and concatenate. -/
def selectTopEntries {α : Type} (score : α → ℚ) (key : α → String)
    (caps : List (String × Nat)) (l : List α) : List α :=
  (groupByKey key l).flatMap (fun g => sectionSelect score (capFor caps g.1) g.2)

/-- Section of a scored entry, the grouping key of create_tailored_json. -/
def scoredSection (e : ScoredEntry) : String := e.entry.section_

/-- Relevance score of a scored entry, the selection key. -/
def scoredScore (e : ScoredEntry) : ℚ := e.relevance_score

/-- The tailored entries list produced by create_tailored_json from the
original entries and the outcomes of their scoring calls. -/
def create_tailored_entries (service : Service) (improve : Bool)
    (caps : List (String × Nat)) (entries : List Entry) (resps : List ScoreResp) :
    List ScoredEntry :=
  selectTopEntries scoredScore scoredSection caps (scoreEntries service improve entries resps)

theorem filter_flatMap_eq {α β : Type} (p : β → Bool) (f : α → List β) :
    ∀ l : List α, (l.flatMap f).filter p = l.flatMap (fun a => (f a).filter p) := by
  intro l
  induction l with
  | nil => rfl
  | cons x xs ih => simp [List.flatMap_cons, List.filter_append, ih]

theorem mem_of_sectionSelect {α : Type} (score : α → ℚ) (cap : Nat) (es : List α) (x : α)
    (hx : x ∈ sectionSelect score cap es) : x ∈ es ∧ 3 ≤ score x := by
  unfold sectionSelect at hx
  have h1 := List.mem_filter.mp hx
  exact ⟨List.mem_mergeSort.mp (List.mem_of_mem_take h1.1), by simpa using h1.2⟩

theorem sectionSelect_filter_self {α : Type} (score : α → ℚ) (key : α → String)
    (cap : Nat) (g : String × List α) (hbucket : ∀ a ∈ g.2, key a = g.1) (s : String) :
    (sectionSelect score cap g.2).filter (fun x => key x == s)
      = if g.1 = s then sectionSelect score cap g.2 else [] := by
  by_cases hgs : g.1 = s
  · rw [if_pos hgs]
    apply List.filter_eq_self.mpr
    intro a ha
    have hag : key a = g.1 := hbucket a (mem_of_sectionSelect score cap g.2 a ha).1
    simp [hag, hgs]
  · rw [if_neg hgs]
    rw [List.filter_eq_nil_iff]
    intro a ha
    have hag : key a = g.1 := hbucket a (mem_of_sectionSelect score cap g.2 a ha).1
    simp [hag, hgs]

theorem flatMap_filter_single {α : Type} (score : α → ℚ) (key : α → String)
    (caps : List (String × Nat)) (l : List α) (s : String) :
    ∀ G : List (String × List α),
      (G.map Prod.fst).Nodup →
      (∀ g ∈ G, g.2 = l.filter (fun x => key x == g.1)) →
      (G.flatMap (fun g => sectionSelect score (capFor caps g.1) g.2)).filter
          (fun x => key x == s)
        = if s ∈ G.map Prod.fst then
            sectionSelect score (capFor caps s) (l.filter (fun x => key x == s))
          else [] := by
  intro G
  induction G with
  | nil => intro _ _; simp
  | cons g G ih =>
    intro hnd hbuckets
    rw [List.flatMap_cons, List.filter_append]
    have hnd2 : ¬ g.1 ∈ G.map Prod.fst ∧ (G.map Prod.fst).Nodup := by
      rw [List.map_cons, List.nodup_cons] at hnd
      exact hnd
    have hbg : g.2 = l.filter (fun x => key x == g.1) := hbuckets g (by simp)
    have helems : ∀ a ∈ g.2, key a = g.1 := by
      intro a ha
      rw [hbg] at ha
      have := (List.mem_filter.mp ha).2
      simpa using this
    rw [sectionSelect_filter_self score key (capFor caps g.1) g helems s]
    rw [ih hnd2.2 (fun q hq => hbuckets q (by simp [hq]))]
    by_cases hgs : g.1 = s
    · have hsmem : s ∈ (g :: G).map Prod.fst := by
        rw [List.map_cons]
        exact List.mem_cons.mpr (Or.inl hgs.symm)
      have hsnot : ¬ s ∈ G.map Prod.fst := by
        rw [← hgs]
        exact hnd2.1
      rw [if_pos hgs, if_pos hsmem, if_neg hsnot, hbg, hgs]
      simp
    · by_cases hsG : s ∈ G.map Prod.fst
      · have hsmem : s ∈ (g :: G).map Prod.fst := by
          rw [List.map_cons]
          exact List.mem_cons.mpr (Or.inr hsG)
        rw [if_neg hgs, if_pos hsG, if_pos hsmem]
        simp
      · have hsnot : ¬ s ∈ (g :: G).map Prod.fst := by
          rw [List.map_cons]
          intro hc
          rcases List.mem_cons.mp hc with hc | hc
          · exact hgs hc.symm
          · exact hsG hc
        rw [if_neg hgs, if_neg hsG, if_neg hsnot]
        simp

/-- A scored education entry used in the concrete cap-and-floor scenario. -/
def educationScored (t : String) (q : ℚ) : ScoredEntry :=
  ⟨⟨"education", t, "", "", "", "", [], [], ["cv"], 0⟩, q, "", none⟩

/-- Five education entries scored 9, 7, 6, 4, 2. -/
def fiveScored : List ScoredEntry :=
  [educationScored "A" 9, educationScored "B" 7, educationScored "C" 6,
   educationScored "D" 4, educationScored "E" 2]

theorem selectTopEntries_section_filter (l : List ScoredEntry)
    (caps : List (String × Nat)) (s : String) :
    (selectTopEntries scoredScore scoredSection caps l).filter (fun x => scoredSection x == s)
      = sectionSelect scoredScore (capFor caps s) (l.filter (fun x => scoredSection x == s)) := by
  unfold selectTopEntries
  rw [flatMap_filter_single scoredScore scoredSection caps l s (groupByKey scoredSection l)
    (nodup_keys_groupByKey scoredSection l)
    (fun g hg => bucket_eq_filter scoredSection l g hg)]
  by_cases hmem : s ∈ (groupByKey scoredSection l).map Prod.fst
  · rw [if_pos hmem]
  · rw [if_neg hmem, filter_eq_nil_of_not_key scoredSection l s hmem]
    simp [sectionSelect]

unseal List.merge List.mergeSort in
/-- C3: the tailoring selection groups scored entries by section, and for
every section the selected entries of that section are exactly the stable
descending-by-score sort of that sections entries, cut to the per-section
cap (default 2 when the section is not in the cap map) and stripped of
anything scoring below 3; in particular the concrete 9,7,6,4,2 education
scenario keeps exactly the entries scored 9 and 7. -/
theorem C3_tailoring_cap_and_floor (l : List ScoredEntry) (caps : List (String × Nat))
    (s : String) (e : ScoredEntry)
    (he : e ∈ selectTopEntries scoredScore scoredSection caps l) :
    (selectTopEntries scoredScore scoredSection caps l).filter (fun x => scoredSection x == s)
        = sectionSelect scoredScore (capFor caps s) (l.filter (fun x => scoredSection x == s))
    ∧ ((selectTopEntries scoredScore scoredSection caps l).filter
          (fun x => scoredSection x == s)).length ≤ capFor caps s
    ∧ 3 ≤ scoredScore e
    ∧ (∀ t, caps.find? (fun p => p.1 == t) = none → capFor caps t = 2)
    ∧ selectTopEntries scoredScore scoredSection default_max_entries_per_section fiveScored
        = [educationScored "A" 9, educationScored "B" 7] := by
  refine ⟨selectTopEntries_section_filter l caps s, ?_, ?_, ?_, ?_⟩
  · rw [selectTopEntries_section_filter l caps s]
    exact le_trans (List.length_filter_le _ _) (List.length_take_le _ _)
  · obtain ⟨g, _, hmem⟩ := List.mem_flatMap.mp he
    exact (mem_of_sectionSelect scoredScore _ _ e hmem).2
  · intro t ht
    unfold capFor
    rw [ht]
    rfl
  · decide

unseal List.merge List.mergeSort in
/-- Witness for C3 on the concrete five-entry education scenario. -/
theorem C3_tailoring_cap_and_floor_witness :
    (educationScored "A" 9
        ∈ selectTopEntries scoredScore scoredSection default_max_entries_per_section fiveScored)
    ∧ 3 ≤ scoredScore (educationScored "A" 9)
    ∧ ((selectTopEntries scoredScore scoredSection default_max_entries_per_section
          fiveScored).filter (fun x => scoredSection x == "education")).length
        ≤ capFor default_max_entries_per_section "education"
    ∧ capFor default_max_entries_per_section "other" = 2 :=
  ⟨by decide,
   (C3_tailoring_cap_and_floor fiveScored default_max_entries_per_section "education"
      (educationScored "A" 9) (by decide)).2.2.1,
   (C3_tailoring_cap_and_floor fiveScored default_max_entries_per_section "education"
      (educationScored "A" 9) (by decide)).2.1,
   (C3_tailoring_cap_and_floor fiveScored default_max_entries_per_section "education"
      (educationScored "A" 9) (by decide)).2.2.2.1 "other" (by decide)⟩

/-- One row of aside_sections.csv as read by the parser; only the category
slug and the display name are consumed on import (is_code and sort_order
are ignored there). -/
structure AsideSectionRow where
  category : String
  display_name : String
deriving DecidableEq

/-- One row of aside_entries.csv as read by the parser; only the category
slug and the entry name are consumed. -/
structure AsideEntryRow where
  category : String
  entry : String
deriving DecidableEq

/-- One skill name with its (always empty on import) level. -/
structure SkillEntry where
  name : String
  level : String
deriving DecidableEq

/-- One skill category of the document. -/
structure SkillCat where
  category : String
  entries : List SkillEntry
  tags : List String
deriving DecidableEq

/-- The entries_by_category dict of parse_aside_sections_and_entries
(csv_to_json_converter.py lines 234-248): rows without a category are
skipped, every other row appends its entry (with empty level) to the
bucket of its category. -/
def entries_by_category (rows : List AsideEntryRow) : List (String × List SkillEntry) :=
  rows.foldl
    (fun m row => if row.category = "" then m else addToGroups m row.category ⟨row.entry, ""⟩)
    []

/-- parse_aside_sections_and_entries (lines 250-264): a sections row is
kept only when its category is nonempty AND has at least one matched
entry; the category title is the display name and the tags are fixed. -/
def parse_aside_sections_and_entries (sections : List AsideSectionRow)
    (rows : List AsideEntryRow) : List SkillCat :=
  sections.filterMap (fun s =>
    if s.category = "" then none
    else
      match findGroup (entries_by_category rows) s.category with
      | some es => some ⟨s.display_name, es, ["cv", "resume"]⟩
      | none => none)

/-- Python enumerate starting at the given index. -/
def numberFrom {α : Type} : Nat → List α → List (Nat × α)
  | _, [] => []
  | k, x :: xs => (k, x) :: numberFrom (k + 1) xs

/-- The keyword list of write_aside_entries_csv (line 339). -/
def code_keywords : List String :=
  ["software", "coding", "programming", "development", "package", "script"]

/-- The category slug computed at line 345. -/
def slugify (s : String) : String := charReplace (charReplace (pyLower s) ' ' '_') '/' '_'

/-- The rows written into aside_sections.csv by write_aside_entries_csv
(json_to_csv_converter.py lines 335-349): one row per skill category of
the document, whether or not its entry list is empty. -/
def write_aside_sections_rows (skills_data : List SkillCat) : List (List String) :=
  (numberFrom 0 skills_data).map (fun p =>
    [slugify p.2.category, p.2.category,
     if code_keywords.any (fun k => pyInStr k (pyLower p.2.category)) then "TRUE" else "FALSE",
     toString (p.1 + 1)])

/-- The export writes a sections row even for a category whose entry list
is empty: the omission the spec describes happens on import, not export. -/
theorem C8_empty_category_counterexample :
    write_aside_sections_rows [⟨"X", [], ["cv", "resume"]⟩] = [["x", "X", "FALSE", "1"]]
    ∧ ([["x", "X", "FALSE", "1"]] : List (List String)) ≠ [] := by
  constructor
  · rfl
  · decide

theorem addToGroups_nonempty {α : Type} (gs : List (String × List α)) (k : String) (x : α)
    (h : ∀ p ∈ gs, p.2 ≠ []) : ∀ p ∈ addToGroups gs k x, p.2 ≠ [] := by
  induction gs with
  | nil =>
    intro p hp
    simp only [addToGroups, List.mem_singleton] at hp
    rw [hp]
    simp
  | cons g rest ih =>
    obtain ⟨k', xs⟩ := g
    intro p hp
    by_cases hk : k' = k
    · rw [addToGroups, if_pos hk] at hp
      rcases List.mem_cons.mp hp with rfl | hp'
      · simp
      · exact h p (List.mem_cons.mpr (Or.inr hp'))
    · rw [addToGroups, if_neg hk] at hp
      rcases List.mem_cons.mp hp with rfl | hp'
      · exact h (k', xs) (List.mem_cons.mpr (Or.inl rfl))
      · exact ih (fun q hq => h q (List.mem_cons.mpr (Or.inr hq))) p hp'

theorem entries_by_category_nonempty (rows : List AsideEntryRow) :
    ∀ p ∈ entries_by_category rows, p.2 ≠ [] := by
  unfold entries_by_category
  suffices h : ∀ m : List (String × List SkillEntry), (∀ p ∈ m, p.2 ≠ []) →
      ∀ p ∈ rows.foldl
        (fun m row => if row.category = "" then m else addToGroups m row.category ⟨row.entry, ""⟩)
        m, p.2 ≠ [] by
    exact h [] (by simp)
  induction rows with
  | nil => intro m hm; simp only [List.foldl_nil]; exact hm
  | cons row rest ih =>
    intro m hm
    simp only [List.foldl_cons]
    by_cases hcat : row.category = ""
    · rw [if_pos hcat]
      exact ih m hm
    · rw [if_neg hcat]
      exact ih _ (addToGroups_nonempty m row.category ⟨row.entry, ""⟩ hm)

theorem length_numberFrom {α : Type} : ∀ (k : Nat) (l : List α), (numberFrom k l).length = l.length
  | _, [] => rfl
  | k, _ :: xs => by simp [numberFrom, length_numberFrom (k + 1) xs]

/-- Amended C8: the empty-category omission belongs to the import side:
every skill category produced by parse_aside_sections_and_entries has a
nonempty entry list, while the export writes exactly one sections row per
category of the document, including one whose entry list is empty. -/
theorem C8_empty_category_amended (sections : List AsideSectionRow) (rows : List AsideEntryRow)
    (c : SkillCat) (hc : c ∈ parse_aside_sections_and_entries sections rows)
    (skills_data : List SkillCat) :
    c.entries ≠ [] ∧ (write_aside_sections_rows skills_data).length = skills_data.length := by
  constructor
  · unfold parse_aside_sections_and_entries at hc
    obtain ⟨srow, _, hmk⟩ := List.mem_filterMap.mp hc
    by_cases hcat : srow.category = ""
    · rw [if_pos hcat] at hmk
      simp at hmk
    · rw [if_neg hcat] at hmk
      cases hfind : findGroup (entries_by_category rows) srow.category with
      | none =>
        rw [hfind] at hmk
        simp at hmk
      | some es =>
        rw [hfind] at hmk
        have hc' := Option.some.inj hmk
        have hes : es ≠ [] := by
          unfold findGroup at hfind
          cases hf2 : (entries_by_category rows).find? (fun p => p.1 == srow.category) with
          | none =>
            rw [hf2] at hfind
            simp at hfind
          | some q =>
            rw [hf2] at hfind
            have hq : q ∈ entries_by_category rows := List.mem_of_find?_eq_some hf2
            have hqe := entries_by_category_nonempty rows q hq
            have hqes : q.2 = es := by simpa using hfind
            rw [← hqes]
            exact hqe
        rw [← hc']
        simpa using hes
  · unfold write_aside_sections_rows
    rw [List.length_map, length_numberFrom]

/-- Witness for the amended C8 at a one-category, one-entry table. -/
theorem C8_empty_category_amended_witness :
    ((⟨"Programming", [⟨"Python", ""⟩], ["cv", "resume"]⟩ : SkillCat)
        ∈ parse_aside_sections_and_entries [⟨"prog", "Programming"⟩] [⟨"prog", "Python"⟩])
    ∧ ((⟨"Programming", [⟨"Python", ""⟩], ["cv", "resume"]⟩ : SkillCat).entries ≠ []
      ∧ (write_aside_sections_rows [⟨"X", [], ["cv", "resume"]⟩]).length
          = ([⟨"X", [], ["cv", "resume"]⟩] : List SkillCat).length) :=
  ⟨by decide,
   C8_empty_category_amended [⟨"prog", "Programming"⟩] [⟨"prog", "Python"⟩]
     ⟨"Programming", [⟨"Python", ""⟩], ["cv", "resume"]⟩ (by decide)
     [⟨"X", [], ["cv", "resume"]⟩]⟩

/-- One text block of the document. -/
structure TextBlock where
  id : String
  content : String
  tags : List String
deriving DecidableEq

/-- One Python object on the heap, for reasoning about sharing and
mutation: the document dict, its meta, contact_info, text_blocks and
skills payloads (modelled as single objects, since sharing the containing
list shares every element reachable from it), the entries list of entry
refs, and individual entry dicts before and after scoring. -/
inductive HObj where
  | entryObj (e : Entry)
  | scoredObj (e : ScoredEntry)
  | listObj (refs : List Nat)
  | metaObj (kv : List (String × String))
  | contactObj (kv : List (String × ContactVal))
  | blocksObj (bs : List TextBlock)
  | skillsObj (ss : List SkillCat)
  | docObj (meta contact_info entries text_blocks skills : Nat)
deriving DecidableEq

/-- A heap: object ids mapped to objects; allocation appends fresh ids. -/
abbrev Store := List (Nat × HObj)

/-- Dereference one object id. -/
def storeGet (σ : Store) (r : Nat) : Option HObj :=
  (σ.find? (fun p => p.1 == r)).map Prod.snd

/-- The entry dicts reached from the refs of the entries list. -/
def resolveEntries (σ : Store) (refs : List Nat) : List Entry :=
  refs.filterMap (fun r =>
    match storeGet σ r with
    | some (HObj.entryObj en) => some en
    | _ => none)

/-- The scored shallow copies of the loop at lines 893-908, each allocated
at a fresh id fresh+1+i for input entry i. -/
def scoredPairsOf (score : Entry → ℚ × String × List String) (improve : Bool)
    (fresh : Nat) (ens : List Entry) : List (Nat × ScoredEntry) :=
  (numberFrom (fresh + 1) ens).map (fun q => (q.1, mkScoredEntry improve q.2 (score q.2)))

/-- The freshly allocated objects of one create_tailored_json run other
than the output document dict: the new meta dict at id fresh, the scored
entry copies, and the tailored entries list at id fresh+1+n holding the
refs of the selected copies. -/
def tailoredNewObjs (σ : Store) (entryRefs : List Nat)
    (score : Entry → ℚ × String × List String) (caps : List (String × Nat))
    (improve : Bool) (newMeta : List (String × String)) (fresh : Nat) : Store :=
  [(fresh, HObj.metaObj newMeta)]
    ++ (scoredPairsOf score improve fresh (resolveEntries σ entryRefs)).map
        (fun q => (q.1, HObj.scoredObj q.2))
    ++ [(fresh + 1 + (resolveEntries σ entryRefs).length,
         HObj.listObj ((selectTopEntries (fun q => scoredScore q.2) (fun q => scoredSection q.2)
            caps (scoredPairsOf score improve fresh (resolveEntries σ entryRefs))).map Prod.fst))]

/-- Heap-level model of create_tailored_json (ai_cv_generator.py lines
859-940).  The output document dict holds a fresh meta object and a fresh
entries list of fresh scored copies, but reuses the ids of the input
document for contact_info, skills and text_blocks: the code builds
tailored_data directly from cv_data.get(...) references (the deep copy its
comment announces never happens).  Only fresh ids are ever written, since
every Python assignment in the function targets a dict or list created
inside it.  Intermediate objects unreachable from the result (the grouping
dict, description copies) are elided.  On an ill-formed store (where
Python would raise) the model returns its input unchanged; the claims only
quantify over well-formed documents. -/
def create_tailored_json_heap (σ : Store) (docRef : Nat)
    (score : Entry → ℚ × String × List String) (caps : List (String × Nat))
    (improve : Bool) (newMeta : List (String × String)) (fresh : Nat) : Store × Nat :=
  match storeGet σ docRef with
  | some (HObj.docObj _ contact entriesRef blocks skills) =>
    match storeGet σ entriesRef with
    | some (HObj.listObj entryRefs) =>
      (σ ++ tailoredNewObjs σ entryRefs score caps improve newMeta fresh
         ++ [(fresh + 2 + (resolveEntries σ entryRefs).length,
              HObj.docObj fresh contact (fresh + 1 + (resolveEntries σ entryRefs).length)
                blocks skills)],
       fresh + 2 + (resolveEntries σ entryRefs).length)
    | _ => (σ, docRef)
  | _ => (σ, docRef)

theorem mem_numberFrom {α : Type} :
    ∀ (l : List α) (k : Nat) (p : Nat × α), p ∈ numberFrom k l → k ≤ p.1 ∧ p.1 < k + l.length := by
  intro l
  induction l with
  | nil => intro k p hp; simp [numberFrom] at hp
  | cons x xs ih =>
    intro k p hp
    rw [numberFrom] at hp
    rcases List.mem_cons.mp hp with rfl | hp'
    · simp only [List.length_cons]
      omega
    · have := ih (k + 1) p hp'
      simp only [List.length_cons]
      omega

theorem scoredPairsOf_ids (score : Entry → ℚ × String × List String) (improve : Bool)
    (fresh : Nat) (ens : List Entry) (q : Nat × ScoredEntry)
    (hq : q ∈ scoredPairsOf score improve fresh ens) :
    fresh + 1 ≤ q.1 ∧ q.1 < fresh + 1 + ens.length := by
  unfold scoredPairsOf at hq
  obtain ⟨p, hp, hpq⟩ := List.mem_map.mp hq
  have hb := mem_numberFrom ens (fresh + 1) p hp
  have : q.1 = p.1 := by rw [← hpq]
  omega

theorem mem_of_selectTopEntries {α : Type} (score : α → ℚ) (key : α → String)
    (caps : List (String × Nat)) (l : List α) (x : α)
    (hx : x ∈ selectTopEntries score key caps l) : x ∈ l := by
  obtain ⟨g, hg, hmem⟩ := List.mem_flatMap.mp hx
  have h2 := (mem_of_sectionSelect score _ g.2 x hmem).1
  rw [bucket_eq_filter key l g hg] at h2
  exact (List.mem_filter.mp h2).1

theorem tailoredNewObjs_ids (σ : Store) (entryRefs : List Nat)
    (score : Entry → ℚ × String × List String) (caps : List (String × Nat))
    (improve : Bool) (newMeta : List (String × String)) (fresh : Nat) :
    ∀ q ∈ tailoredNewObjs σ entryRefs score caps improve newMeta fresh,
      fresh ≤ q.1 ∧ q.1 ≤ fresh + 1 + (resolveEntries σ entryRefs).length := by
  intro q hq
  unfold tailoredNewObjs at hq
  rcases List.mem_append.mp hq with hq' | hq'
  · rcases List.mem_append.mp hq' with hq'' | hq''
    · simp only [List.mem_singleton] at hq''
      subst hq''
      omega
    · obtain ⟨p, hp, hpq⟩ := List.mem_map.mp hq''
      have hb := scoredPairsOf_ids score improve fresh (resolveEntries σ entryRefs) p hp
      have : q.1 = p.1 := by rw [← hpq]
      omega
  · simp only [List.mem_singleton] at hq'
    subst hq'
    omega

theorem storeGet_append_of_right_none (σ ns : Store) (r : Nat) (h : ∀ q ∈ ns, q.1 ≠ r) :
    storeGet (σ ++ ns) r = storeGet σ r := by
  unfold storeGet
  rw [List.find?_append]
  have hn : ns.find? (fun p => p.1 == r) = none :=
    List.find?_eq_none.mpr (fun q hq => by simpa using h q hq)
  rw [hn, Option.or_none]

theorem storeGet_append_of_left_none (σ ns : Store) (r : Nat) (h : ∀ q ∈ σ, q.1 ≠ r) :
    storeGet (σ ++ ns) r = storeGet ns r := by
  unfold storeGet
  rw [List.find?_append]
  have hn : σ.find? (fun p => p.1 == r) = none :=
    List.find?_eq_none.mpr (fun q hq => by simpa using h q hq)
  rw [hn, Option.none_or]

set_option maxHeartbeats 1600000 in
/-- Amended C7: create_tailored_json never mutates the input document (all
ids below fresh keep their objects, so meta, contactInfo, entries,
textBlocks and skills of the input are unchanged), the selected entries of
the output are freshly allocated copies, and the output document holds a
fresh meta object and a fresh entries list, BUT its contact_info,
text_blocks and skills fields reference the very same objects as the
input document: those parts are shared, not independent. -/
theorem C7_tailoring_no_mutation_amended (σ : Store) (docRef : Nat)
    (score : Entry → ℚ × String × List String) (caps : List (String × Nat))
    (improve : Bool) (newMeta : List (String × String)) (fresh : Nat)
    (m contact entriesRef blocks skills : Nat) (entryRefs : List Nat)
    (hfresh : ∀ q ∈ σ, q.1 < fresh)
    (hdoc : storeGet σ docRef = some (HObj.docObj m contact entriesRef blocks skills))
    (hlist : storeGet σ entriesRef = some (HObj.listObj entryRefs)) :
    (∀ r, r < fresh →
      storeGet (create_tailored_json_heap σ docRef score caps improve newMeta fresh).1 r
        = storeGet σ r)
    ∧ (create_tailored_json_heap σ docRef score caps improve newMeta fresh).2
        = fresh + 2 + (resolveEntries σ entryRefs).length
    ∧ storeGet (create_tailored_json_heap σ docRef score caps improve newMeta fresh).1
          (fresh + 2 + (resolveEntries σ entryRefs).length)
        = some (HObj.docObj fresh contact (fresh + 1 + (resolveEntries σ entryRefs).length)
            blocks skills)
    ∧ storeGet (create_tailored_json_heap σ docRef score caps improve newMeta fresh).1 fresh
        = some (HObj.metaObj newMeta)
    ∧ (∀ rr ∈ (selectTopEntries (fun q => scoredScore q.2) (fun q => scoredSection q.2) caps
          (scoredPairsOf score improve fresh (resolveEntries σ entryRefs))).map Prod.fst,
        fresh < rr) := by
  have hres : create_tailored_json_heap σ docRef score caps improve newMeta fresh
      = (σ ++ tailoredNewObjs σ entryRefs score caps improve newMeta fresh
           ++ [(fresh + 2 + (resolveEntries σ entryRefs).length,
                HObj.docObj fresh contact (fresh + 1 + (resolveEntries σ entryRefs).length)
                  blocks skills)],
         fresh + 2 + (resolveEntries σ entryRefs).length) := by
    simp only [create_tailored_json_heap, hdoc, hlist]
  have h1 : (create_tailored_json_heap σ docRef score caps improve newMeta fresh).1
      = σ ++ tailoredNewObjs σ entryRefs score caps improve newMeta fresh
          ++ [(fresh + 2 + (resolveEntries σ entryRefs).length,
               HObj.docObj fresh contact (fresh + 1 + (resolveEntries σ entryRefs).length)
                 blocks skills)] := by
    rw [hres]
  have h2 : (create_tailored_json_heap σ docRef score caps improve newMeta fresh).2
      = fresh + 2 + (resolveEntries σ entryRefs).length := by
    rw [hres]
  have hA := tailoredNewObjs_ids σ entryRefs score caps improve newMeta fresh
  refine ⟨?_, h2, ?_, ?_, ?_⟩
  · intro r hr
    rw [h1, List.append_assoc]
    apply storeGet_append_of_right_none
    intro q hq
    rcases List.mem_append.mp hq with hq' | hq'
    · have := hA q hq'
      omega
    · simp only [List.mem_singleton] at hq'
      subst hq'
      simp only
      omega
  · rw [h1, List.append_assoc,
      storeGet_append_of_left_none σ _ _ (fun q hq => by have := hfresh q hq; omega),
      storeGet_append_of_left_none _ _ _ (fun q hq => by have := hA q hq; omega)]
    simp [storeGet, List.find?]
  · rw [h1, List.append_assoc,
      storeGet_append_of_left_none σ _ _ (fun q hq => by have := hfresh q hq; omega)]
    unfold tailoredNewObjs
    simp [storeGet, List.find?]
  · intro rr hrr
    obtain ⟨q, hq, hq1⟩ := List.mem_map.mp hrr
    have hmem := mem_of_selectTopEntries (fun q => scoredScore q.2) (fun q => scoredSection q.2)
      caps (scoredPairsOf score improve fresh (resolveEntries σ entryRefs)) q hq
    have hb := scoredPairsOf_ids score improve fresh (resolveEntries σ entryRefs) q hmem
    omega

/-- A concrete entry for the heap scenario. -/
def exEntry : Entry :=
  ⟨"education", "BSc", "", "", "2010", "2014", ["studied"], [], ["cv"], 1⟩

/-- The refreshed meta payload written by create_tailored_json. -/
def exMeta : List (String × String) := [("generated_by", "ai_cv_generator.py")]

/-- A well-formed one-entry document on the heap: document 0 with meta 1,
contact_info 2, entries list 3 holding entry 6, text_blocks 4, skills 5. -/
def exStore : Store :=
  [(0, HObj.docObj 1 2 3 4 5),
   (1, HObj.metaObj [("last_updated", "2024-01-01")]),
   (2, HObj.contactObj [("email", ⟨"a@b.c", "envelope"⟩)]),
   (3, HObj.listObj [6]),
   (4, HObj.blocksObj [⟨"intro", "Hi", ["cv", "resume"]⟩]),
   (5, HObj.skillsObj [⟨"Coding", [⟨"Python", ""⟩], ["cv", "resume"]⟩]),
   (6, HObj.entryObj exEntry)]

/-- A scorer that accepts everything. -/
def exScore : Entry → ℚ × String × List String := fun _ => (10, "relevant", [])

unseal List.merge List.mergeSort in
/-- The tailored document (id 10) references text_blocks object 4, skills
object 5 and contact_info object 2 — the very objects the input document
(id 0, docObj 1 2 3 4 5) references: its text blocks and skill categories
are shared with the input, not independent copies, refuting the no-sharing
part of the claim. -/
theorem C7_tailoring_shared_objects_counterexample :
    (create_tailored_json_heap exStore 0 exScore default_max_entries_per_section
        false exMeta 7).2 = 10
    ∧ storeGet (create_tailored_json_heap exStore 0 exScore default_max_entries_per_section
        false exMeta 7).1 10 = some (HObj.docObj 7 2 9 4 5)
    ∧ storeGet exStore 0 = some (HObj.docObj 1 2 3 4 5)
    ∧ storeGet (create_tailored_json_heap exStore 0 exScore default_max_entries_per_section
        false exMeta 7).1 4 = some (HObj.blocksObj [⟨"intro", "Hi", ["cv", "resume"]⟩]) := by
  refine ⟨?_, ?_, ?_, ?_⟩
  · rfl
  · rfl
  · rfl
  · rfl

unseal List.merge List.mergeSort in
/-- Witness for the amended C7 at the concrete one-entry document. -/
theorem C7_tailoring_no_mutation_amended_witness :
    ((∀ q ∈ exStore, q.1 < 7)
      ∧ storeGet exStore 0 = some (HObj.docObj 1 2 3 4 5)
      ∧ storeGet exStore 3 = some (HObj.listObj [6]))
    ∧ ((∀ r, r < 7 →
          storeGet (create_tailored_json_heap exStore 0 exScore default_max_entries_per_section
              false exMeta 7).1 r = storeGet exStore r)
      ∧ (create_tailored_json_heap exStore 0 exScore default_max_entries_per_section
            false exMeta 7).2 = 7 + 2 + (resolveEntries exStore [6]).length
      ∧ storeGet (create_tailored_json_heap exStore 0 exScore default_max_entries_per_section
            false exMeta 7).1 (7 + 2 + (resolveEntries exStore [6]).length)
          = some (HObj.docObj 7 2 (7 + 1 + (resolveEntries exStore [6]).length) 4 5)
      ∧ storeGet (create_tailored_json_heap exStore 0 exScore default_max_entries_per_section
            false exMeta 7).1 7 = some (HObj.metaObj exMeta)
      ∧ (∀ rr ∈ (selectTopEntries (fun q => scoredScore q.2) (fun q => scoredSection q.2)
            default_max_entries_per_section
            (scoredPairsOf exScore false 7 (resolveEntries exStore [6]))).map Prod.fst,
          7 < rr)) :=
  ⟨⟨by decide, rfl, rfl⟩,
   C7_tailoring_no_mutation_amended exStore 0 exScore default_max_entries_per_section
     false exMeta 7 1 2 3 4 5 [6] (by decide) rfl rfl⟩
